import Mathlib

/-!
Verification of `setuptools/msvc9_support.py`.

Shallow-embedding conventions used throughout this file:

* Python strings are modelled as `String`, or as `List Char` where structural
  induction over the characters is needed (`PlatformInfo`).
* Python `float` toolchain versions are modelled as `ℚ`; version names are
  parsed by an arbitrary parameter `parse : String → Option ℚ` standing for
  `float(...)`, which returns `none` when the parse raises `ValueError`
  (non-finite parses such as `"nan"` are outside this model).
* Ambient state (the registry, the filesystem, the process environment) is
  passed explicitly as structures / functions of pure data.
* Python code that raises is modelled with `Except` or with explicit outcome
  types; `winreg` "key/value not found" conditions are modelled as `Bool` /
  `Option` results, matching how the module catches `FileNotFoundError`.
* `os.pathsep` is `';'` and path separators are `'\\'`: the module is
  Windows-only.
-/

/-- Model of Python `str.lower` on one ASCII character. -/
def lowerChar (c : Char) : Char :=
  if 'A' ≤ c ∧ c ≤ 'Z' then Char.ofNat (c.toNat + 32) else c

/-- Model of Python `str.lower` on a character list. -/
def pyLower (s : List Char) : List Char := s.map lowerChar

/-- Model of Python `str.upper` on one ASCII character. -/
def upperChar (c : Char) : Char :=
  if 'a' ≤ c ∧ c ≤ 'z' then Char.ofNat (c.toNat - 32) else c

/-- Model of Python `str.upper`. -/
def upperStr (s : String) : String := String.mk (s.data.map upperChar)

/-- Model of Python `str.lower` on a `String`. -/
def lowerStr (s : String) : String := String.mk (pyLower s.data)

/-- Model of Python `str.find(c)` for a single character: the index of the
first occurrence, or `-1` when absent. -/
def pyFind (c : Char) : List Char → Int
  | [] => -1
  | x :: xs =>
    if x = c then 0 else if pyFind c xs = -1 then -1 else pyFind c xs + 1

/-- Model of Python `str.replace(old, new)` where `old` is one character. -/
def pyReplaceChar (old : Char) (new : List Char) : List Char → List Char
  | [] => []
  | x :: xs => (if x = old then new else [x]) ++ pyReplaceChar old new xs

/-- Model of Python `str.split(sep)` for a single-character separator
(accumulator holds the current field reversed). -/
def pySplitAux (sep : Char) (cur : List Char) : List Char → List (List Char)
  | [] => [cur.reverse]
  | c :: cs =>
    if c = sep then cur.reverse :: pySplitAux sep [] cs
    else pySplitAux sep (c :: cur) cs

/-- Model of Python `str.split(sep)`; like Python, `"".split(sep) == ['']`. -/
def pySplit (sep : Char) (s : String) : List String :=
  (pySplitAux sep [] s.data).map String.mk

/-- Model of Python `sep.join(strings)` for a one-character separator. -/
def pyJoin (sep : Char) (l : List String) : String :=
  String.mk (List.intercalate [sep] (l.map String.data))

/-- Boolean prefix test on character lists (helper for substring search). -/
def isPrefixOfB : List Char → List Char → Bool
  | [], _ => true
  | _ :: _, [] => false
  | a :: as, b :: bs => a = b && isPrefixOfB as bs

/-- Model of Python `needle in hay` / `hay.find(needle) > -1` on strings. -/
def containsSub (needle : List Char) : List Char → Bool
  | [] => isPrefixOfB needle []
  | b :: bs => isPrefixOfB needle (b :: bs) || containsSub needle bs

/-- `os.pathsep` on Windows. -/
def pathsep : Char := ';'

/-- Model of `os.path.join(a, b)` (`ntpath`) for a relative, drive-less second
component, as used by the module: append a backslash separator unless `a` is
empty or already ends in a separator. -/
def ntJoin (a b : String) : String :=
  if a = "" then b
  else if a.data.getLast? = some '\\' ∨ a.data.getLast? = some '/' then a ++ b
  else a ++ "\\" ++ b

/-- `os.path.join` with three components. -/
def ntJoin3 (a b c : String) : String := ntJoin (ntJoin a b) c

namespace PlatformInfo

/-- `PlatformInfo.target_cpu`: the source computes
`self.arch[self.arch.find('_') + 1:]` on `self.arch = arch.lower()`. -/
def target_cpu (arch : List Char) : List Char :=
  (pyLower arch).drop ((pyFind '_' (pyLower arch) + 1).toNat)

/-- `PlatformInfo.target_dir(hidex86, x64)`. -/
def target_dir (arch : List Char) (hidex86 x64 : Bool) : List Char :=
  if target_cpu arch = "x86".data ∧ hidex86 = true then []
  else if target_cpu arch = "amd64".data ∧ x64 = true then '\\' :: "x64".data
  else '\\' :: target_cpu arch

/-- `PlatformInfo.cross_dir(forcex86)`; `current_cpu` is the ambient
(lowercased) `processor_architecture` environment value, passed explicitly. -/
def cross_dir (current_cpu arch : List Char) (forcex86 : Bool) : List Char :=
  let path := target_dir arch true false
  if target_cpu arch ≠ current_cpu then
    pyReplaceChar '\\'
      ('\\' :: ((if forcex86 then "x86".data else current_cpu) ++ ['_'])) path
  else path

end PlatformInfo

/-- Spec-side reading used by claim C6: the substring after the LAST
underscore, or the whole string when it contains none. -/
def afterLastUnderscore (s : List Char) : List Char :=
  (s.reverse.takeWhile (fun c => c ≠ '_')).reverse

theorem pyFind_eq_neg_one_of_not_mem {c : Char} {l : List Char} (h : c ∉ l) :
    pyFind c l = -1 := by
  induction l with
  | nil => rfl
  | cons x xs ih =>
    simp only [List.mem_cons, not_or] at h
    simp [pyFind, Ne.symm h.1, ih h.2]

theorem pyFind_append_cons {c : Char} {pre post : List Char} (h : c ∉ pre) :
    pyFind c (pre ++ c :: post) = pre.length := by
  induction pre with
  | nil => simp [pyFind]
  | cons p ps ih =>
    simp only [List.mem_cons, not_or] at h
    have hps := ih h.2
    have hne : ((ps.length : Int) = -1) = False := by
      simp only [eq_iff_iff, iff_false]
      omega
    simp [pyFind, Ne.symm h.1, hps, hne]

/-- C6 counterexample: for the spec `"a_b_c"` the code takes the substring
after the FIRST underscore (`"b_c"`), not after the last one (`"c"`). -/
theorem target_cpu_not_after_last_underscore :
    PlatformInfo.target_cpu "a_b_c".data ≠
      afterLastUnderscore (pyLower "a_b_c".data) := by decide

/-- C6 (amended): for every architecture spec, `PlatformInfo.target_cpu`
equals the substring of the lowercased spec after its FIRST underscore, or
the whole lowercased spec when it contains no underscore. -/
theorem target_cpu_after_first_underscore (arch : List Char) :
    (('_' ∉ pyLower arch) → PlatformInfo.target_cpu arch = pyLower arch) ∧
    (∀ pre post, pyLower arch = pre ++ '_' :: post → '_' ∉ pre →
      PlatformInfo.target_cpu arch = post) := by
  constructor
  · intro h
    unfold PlatformInfo.target_cpu
    rw [pyFind_eq_neg_one_of_not_mem h]
    simp
  · intro pre post hsplit hpre
    unfold PlatformInfo.target_cpu
    rw [hsplit, pyFind_append_cons hpre]
    have htn : (((pre.length : Int) + 1).toNat) = pre.length + 1 := by omega
    rw [htn]
    have : pre ++ '_' :: post = (pre ++ ['_']) ++ post := by simp
    rw [this]
    have hlen : pre.length + 1 = (pre ++ ['_']).length := by simp
    rw [hlen, List.drop_left]

/-- C6 witness: the amended statement evaluated on `"x86_amd64"`. -/
theorem target_cpu_after_first_underscore_witness :
    PlatformInfo.target_cpu "x86_amd64".data = "amd64".data :=
  (target_cpu_after_first_underscore "x86_amd64".data).2
    "x86".data "amd64".data (by decide) (by decide)

theorem pyReplaceChar_of_not_mem {old : Char} {new l : List Char}
    (h : old ∉ l) : pyReplaceChar old new l = l := by
  induction l with
  | nil => rfl
  | cons x xs ih =>
    simp only [List.mem_cons, not_or] at h
    simp [pyReplaceChar, Ne.symm h.1, ih h.2]

/-- C7 counterexample: with current CPU `amd64` and architecture spec
`"amd64"` the target CPU equals the current CPU, yet `cross_dir` returns
`"\amd64"`, not the empty string. -/
theorem cross_dir_nonempty_when_target_equals_current :
    PlatformInfo.target_cpu "amd64".data = "amd64".data ∧
    PlatformInfo.cross_dir "amd64".data "amd64".data false ≠ [] := by decide

/-- C7 (amended): `cross_dir(forcex86)` returns the empty string exactly when
the target CPU is x86 (whether or not it equals the current CPU); otherwise,
when the target CPU equals the current CPU it returns the backslash-prefixed
target CPU, and when they differ it returns `\C_T` where `T` is the target
CPU and `C` is the literal `x86` if `forcex86` is set, else the current CPU.
(The hypothesis rules out backslashes inside the parsed target CPU, which
would be mangled by the `str.replace` call.) -/
theorem cross_dir_characterization (current_cpu arch : List Char)
    (forcex86 : Bool) (h : '\\' ∉ PlatformInfo.target_cpu arch) :
    PlatformInfo.cross_dir current_cpu arch forcex86 =
      if PlatformInfo.target_cpu arch = "x86".data then []
      else if PlatformInfo.target_cpu arch = current_cpu then
        '\\' :: PlatformInfo.target_cpu arch
      else
        '\\' :: ((if forcex86 then "x86".data else current_cpu) ++
          '_' :: PlatformInfo.target_cpu arch) := by
  unfold PlatformInfo.cross_dir PlatformInfo.target_dir
  by_cases hx : PlatformInfo.target_cpu arch = "x86".data
  · by_cases hc : PlatformInfo.target_cpu arch = current_cpu
    · simp [hx, hc, pyReplaceChar]
    · simp [hx, hc, pyReplaceChar]
  · by_cases hc : PlatformInfo.target_cpu arch = current_cpu
    · simp [hx, hc]
    · have hrepl :
        pyReplaceChar '\\'
          ('\\' :: ((if forcex86 then "x86".data else current_cpu) ++ ['_']))
          ('\\' :: PlatformInfo.target_cpu arch) =
        '\\' :: ((if forcex86 then "x86".data else current_cpu) ++
          '_' :: PlatformInfo.target_cpu arch) := by
        simp [pyReplaceChar, pyReplaceChar_of_not_mem h]
      simp only [hx, hc, if_false, if_neg, ite_false]
      simp [hx, hc, hrepl]

/-- C7 witness: cross compiling from an x86 host to an amd64 target yields
the `\x86_amd64` toolchain subfolder. -/
theorem cross_dir_characterization_witness :
    PlatformInfo.cross_dir "x86".data "x86_amd64".data false =
      "\\x86_amd64".data := by
  have h := cross_dir_characterization "x86".data "x86_amd64".data false
    (by decide)
  rw [h]
  decide

/-- The four registry hive roots probed by the module. -/
inductive Hive
  | users
  | currentUser
  | localMachine
  | classesRoot
deriving DecidableEq

/-- Pure model of the ambient Windows registry state: whether a key opens
under a hive (`winreg.OpenKey` succeeding), the value stored under a name
(`winreg.QueryValueEx`, `none` when it raises `FileNotFoundError`), and the
enumerable value / subkey names (`winreg.EnumValue` / `winreg.EnumKey`). -/
structure Registry where
  openKey : Hive → String → Bool
  queryValue : Hive → String → String → Option String
  valueNames : Hive → String → List String
  subkeyNames : Hive → String → List String

namespace RegistryInfo

/-- `RegistryInfo.HKEYS`, in the source's fixed probe order. -/
def HKEYS : List Hive :=
  [Hive.users, Hive.currentUser, Hive.localMachine, Hive.classesRoot]

/-- `RegistryInfo.microsoft`; `x86` is `PlatformInfo.current_is_x86()`. -/
def microsoft (x86 : Bool) : String :=
  ntJoin3 "Software" (if x86 then "" else "Wow6432Node") "Microsoft"

/-- `RegistryInfo.visualstudio`. -/
def visualstudio (x86 : Bool) : String := ntJoin (microsoft x86) "VisualStudio"

/-- `RegistryInfo.sxs`. -/
def sxs (x86 : Bool) : String := ntJoin (visualstudio x86) "SxS"

/-- `RegistryInfo.vc`. -/
def vc (x86 : Bool) : String := ntJoin (sxs x86) "VC7"

/-- `RegistryInfo.vc_for_python`. -/
def vc_for_python (x86 : Bool) : String :=
  ntJoin (microsoft x86) "DevDiv\\VCForPython"

/-- `RegistryInfo.microsoft_sdk`. -/
def microsoft_sdk (x86 : Bool) : String := ntJoin (microsoft x86) "Microsoft SDKs"

/-- `RegistryInfo.netfx_sdk`. -/
def netfx_sdk (x86 : Bool) : String := ntJoin (microsoft_sdk x86) "NETFXSDK"

/-- `RegistryInfo.windows_kits_roots`. -/
def windows_kits_roots (x86 : Bool) : String :=
  ntJoin (microsoft x86) "Windows Kits\\Installed Roots"

/-- The body of `RegistryInfo.lookup`'s probe loop over the remaining hives:
try to open the key (skip the hive on failure), then read the named value
(return it on success, else move to the next hive). -/
def lookupFrom (reg : Registry) (key name : String) : List Hive → Option String
  | [] => none
  | h :: hs =>
    if reg.openKey h key then
      match reg.queryValue h key name with
      | some v => some v
      | none => lookupFrom reg key name hs
    else lookupFrom reg key name hs

/-- `RegistryInfo.lookup(key, name)`: probe the four hive roots in fixed
order; falling off the loop returns Python `None`, modelled as `none`. -/
def lookup (reg : Registry) (key name : String) : Option String :=
  lookupFrom reg key name HKEYS

end RegistryInfo

/-- The value a single hive contributes: the named value if the key opens and
the value exists there, and nothing otherwise. -/
def hiveValue (reg : Registry) (h : Hive) (key name : String) : Option String :=
  if reg.openKey h key then reg.queryValue h key name else none

theorem lookupFrom_cons (reg : Registry) (key name : String) (h : Hive)
    (hs : List Hive) :
    RegistryInfo.lookupFrom reg key name (h :: hs) =
      (hiveValue reg h key name).orElse
        (fun _ => RegistryInfo.lookupFrom reg key name hs) := by
  have hstep : RegistryInfo.lookupFrom reg key name (h :: hs) =
      if reg.openKey h key then
        match reg.queryValue h key name with
        | some v => some v
        | none => RegistryInfo.lookupFrom reg key name hs
      else RegistryInfo.lookupFrom reg key name hs := rfl
  rw [hstep]
  unfold hiveValue
  by_cases hk : reg.openKey h key
  · cases reg.queryValue h key name <;> simp [hk, Option.orElse]
  · simp [hk, Option.orElse]

/-- C2: `RegistryInfo.lookup` probes the hives in the fixed order
HKEY_USERS, HKEY_CURRENT_USER, HKEY_LOCAL_MACHINE, HKEY_CLASSES_ROOT and
returns the value contributed by the first hive in which the key opens and
the named value exists (absence in a hive is silently skipped), and it
returns the `none` sentinel, raising nothing, exactly when no hive yields a
value. -/
theorem lookup_first_hive_wins (reg : Registry) (key name : String) :
    RegistryInfo.lookup reg key name =
      ((hiveValue reg Hive.users key name).orElse fun _ =>
        ((hiveValue reg Hive.currentUser key name).orElse fun _ =>
          ((hiveValue reg Hive.localMachine key name).orElse fun _ =>
            hiveValue reg Hive.classesRoot key name))) ∧
    (RegistryInfo.lookup reg key name = none ↔
      ∀ h ∈ RegistryInfo.HKEYS, hiveValue reg h key name = none) := by
  have hchain : RegistryInfo.lookup reg key name =
      ((hiveValue reg Hive.users key name).orElse fun _ =>
        ((hiveValue reg Hive.currentUser key name).orElse fun _ =>
          ((hiveValue reg Hive.localMachine key name).orElse fun _ =>
            hiveValue reg Hive.classesRoot key name))) := by
    unfold RegistryInfo.lookup RegistryInfo.HKEYS
    rw [lookupFrom_cons, lookupFrom_cons, lookupFrom_cons, lookupFrom_cons]
    cases hiveValue reg Hive.classesRoot key name <;>
      simp [RegistryInfo.lookupFrom, Option.orElse]
  refine ⟨hchain, ?_⟩
  rw [hchain]
  simp only [RegistryInfo.HKEYS, List.forall_mem_cons, List.forall_mem_nil]
  cases hiveValue reg Hive.users key name <;>
    cases hiveValue reg Hive.currentUser key name <;>
      cases hiveValue reg Hive.localMachine key name <;>
        cases hiveValue reg Hive.classesRoot key name <;>
          simp [Option.orElse]

namespace SystemInfo

/-- One enumeration loop of `SystemInfo.find_availables_vcver`: for each
enumerated name, `float(name)` (here `parse`) is attempted; on success the
version is appended to the accumulator unless already present, and on
`ValueError` (`parse` returning `none`) the name is skipped. -/
def collectVers (parse : String → Option ℚ) : List String → List ℚ → List ℚ
  | [], acc => acc
  | n :: ns, acc =>
    match parse n with
    | some v => collectVers parse ns (if v ∈ acc then acc else acc ++ [v])
    | none => collectVers parse ns acc

/-- The body of `find_availables_vcver` for one (hive, key) pair: skip the
pair when the key does not open, else enumerate first the named values and
then the subkey names under it. -/
def enumOne (parse : String → Option ℚ) (reg : Registry) (hkey : Hive)
    (key : String) (acc : List ℚ) : List ℚ :=
  if reg.openKey hkey key then
    collectVers parse (reg.subkeyNames hkey key)
      (collectVers parse (reg.valueNames hkey key) acc)
  else acc

/-- The inner `for key in vckeys` loop. -/
def enumKeys (parse : String → Option ℚ) (reg : Registry) (hkey : Hive) :
    List String → List ℚ → List ℚ
  | [], acc => acc
  | k :: ks, acc => enumKeys parse reg hkey ks (enumOne parse reg hkey k acc)

/-- The outer `for hkey in self.ri.HKEYS` loop. -/
def enumHives (parse : String → Option ℚ) (reg : Registry)
    (keys : List String) : List Hive → List ℚ → List ℚ
  | [], acc => acc
  | h :: hs, acc => enumHives parse reg keys hs (enumKeys parse reg h keys acc)

/-- `SystemInfo.find_availables_vcver`: enumerate value and subkey names under
the `vc` and `vc_for_python` keys across the four hives, parse them as
versions, deduplicate, and return `sorted(vsvers)` (modelled by insertion
sort, which agrees with any sort on a duplicate-free list over `ℚ`). -/
def find_availables_vcver (parse : String → Option ℚ) (reg : Registry)
    (x86 : Bool) : List ℚ :=
  List.insertionSort (· ≤ ·)
    (enumHives parse reg [RegistryInfo.vc x86, RegistryInfo.vc_for_python x86]
      RegistryInfo.HKEYS [])

end SystemInfo

theorem mem_collectVers (parse : String → Option ℚ) (ns : List String) :
    ∀ (acc : List ℚ) (x : ℚ),
      x ∈ SystemInfo.collectVers parse ns acc ↔
        x ∈ acc ∨ ∃ n ∈ ns, parse n = some x := by
  induction ns with
  | nil => intro acc x; simp [SystemInfo.collectVers]
  | cons n ns ih =>
    intro acc x
    cases hp : parse n with
    | none =>
      simp only [SystemInfo.collectVers, hp]
      simp only [ih, List.mem_cons]
      constructor
      · rintro (h | h)
        · exact Or.inl h
        · exact Or.inr ⟨h.choose, Or.inr h.choose_spec.1, h.choose_spec.2⟩
      · rintro (h | ⟨m, hm | hm, hpm⟩)
        · exact Or.inl h
        · rw [hm, hp] at hpm; cases hpm
        · exact Or.inr ⟨m, hm, hpm⟩
    | some v =>
      simp only [SystemInfo.collectVers, hp]
      by_cases hv : v ∈ acc
      · rw [if_pos hv, ih]
        have hvx : v = x → x ∈ acc := fun h => h ▸ hv
        simp only [List.mem_cons]
        constructor
        · rintro (h | ⟨m, hm, hpm⟩)
          · exact Or.inl h
          · exact Or.inr ⟨m, Or.inr hm, hpm⟩
        · rintro (h | ⟨m, hm | hm, hpm⟩)
          · exact Or.inl h
          · rw [hm, hp] at hpm
            exact Or.inl (hvx (Option.some.inj hpm))
          · exact Or.inr ⟨m, hm, hpm⟩
      · rw [if_neg hv, ih]
        constructor
        · rintro (h | ⟨m, hm, hpm⟩)
          · rcases List.mem_append.mp h with h | h
            · exact Or.inl h
            · have hxv : x = v := by simpa using h
              exact Or.inr ⟨n, List.mem_cons_self n ns, by rw [hp, hxv]⟩
          · exact Or.inr ⟨m, List.mem_cons_of_mem n hm, hpm⟩
        · rintro (h | ⟨m, hm, hpm⟩)
          · exact Or.inl (List.mem_append.mpr (Or.inl h))
          · rcases List.mem_cons.mp hm with rfl | hm
            · rw [hp] at hpm
              have hxv : x = v := (Option.some.inj hpm).symm
              exact Or.inl (List.mem_append.mpr (Or.inr (by simp [hxv])))
            · exact Or.inr ⟨m, hm, hpm⟩

theorem nodup_collectVers (parse : String → Option ℚ) (ns : List String) :
    ∀ acc : List ℚ, acc.Nodup → (SystemInfo.collectVers parse ns acc).Nodup := by
  induction ns with
  | nil => intro acc h; exact h
  | cons n ns ih =>
    intro acc h
    cases hp : parse n with
    | none => simp only [SystemInfo.collectVers, hp]; exact ih acc h
    | some v =>
      simp only [SystemInfo.collectVers, hp]
      by_cases hv : v ∈ acc
      · rw [if_pos hv]; exact ih acc h
      · rw [if_neg hv]
        refine ih (acc ++ [v]) ?_
        simp [List.nodup_append, h, hv]

theorem mem_enumOne (parse : String → Option ℚ) (reg : Registry) (hkey : Hive)
    (key : String) (acc : List ℚ) (x : ℚ) :
    x ∈ SystemInfo.enumOne parse reg hkey key acc ↔
      x ∈ acc ∨ (reg.openKey hkey key = true ∧
        ∃ n ∈ reg.valueNames hkey key ++ reg.subkeyNames hkey key,
          parse n = some x) := by
  unfold SystemInfo.enumOne
  by_cases hk : reg.openKey hkey key
  · simp only [hk, if_true, mem_collectVers]
    constructor
    · rintro ((h | ⟨m, hm, hpm⟩) | ⟨m, hm, hpm⟩)
      · exact Or.inl h
      · exact Or.inr ⟨trivial, m, List.mem_append.mpr (Or.inl hm), hpm⟩
      · exact Or.inr ⟨trivial, m, List.mem_append.mpr (Or.inr hm), hpm⟩
    · rintro (h | ⟨-, m, hm, hpm⟩)
      · exact Or.inl (Or.inl h)
      · rcases List.mem_append.mp hm with hm | hm
        · exact Or.inl (Or.inr ⟨m, hm, hpm⟩)
        · exact Or.inr ⟨m, hm, hpm⟩
  · simp [hk]

theorem nodup_enumOne (parse : String → Option ℚ) (reg : Registry)
    (hkey : Hive) (key : String) (acc : List ℚ) (h : acc.Nodup) :
    (SystemInfo.enumOne parse reg hkey key acc).Nodup := by
  unfold SystemInfo.enumOne
  by_cases hk : reg.openKey hkey key
  · simp only [hk, if_true]
    exact nodup_collectVers _ _ _ (nodup_collectVers _ _ _ h)
  · simpa [hk] using h

theorem mem_enumKeys (parse : String → Option ℚ) (reg : Registry)
    (hkey : Hive) (ks : List String) :
    ∀ (acc : List ℚ) (x : ℚ),
      x ∈ SystemInfo.enumKeys parse reg hkey ks acc ↔
        x ∈ acc ∨ ∃ k ∈ ks, reg.openKey hkey k = true ∧
          ∃ n ∈ reg.valueNames hkey k ++ reg.subkeyNames hkey k,
            parse n = some x := by
  induction ks with
  | nil => intro acc x; simp [SystemInfo.enumKeys]
  | cons k ks ih =>
    intro acc x
    simp only [SystemInfo.enumKeys]
    rw [ih, mem_enumOne]
    constructor
    · rintro ((h | h) | ⟨m, hm, hpm⟩)
      · exact Or.inl h
      · exact Or.inr ⟨k, List.mem_cons_self k ks, h⟩
      · exact Or.inr ⟨m, List.mem_cons_of_mem k hm, hpm⟩
    · rintro (h | ⟨m, hm, hpm⟩)
      · exact Or.inl (Or.inl h)
      · rcases List.mem_cons.mp hm with rfl | hm
        · exact Or.inl (Or.inr hpm)
        · exact Or.inr ⟨m, hm, hpm⟩

theorem nodup_enumKeys (parse : String → Option ℚ) (reg : Registry)
    (hkey : Hive) (ks : List String) :
    ∀ acc : List ℚ, acc.Nodup →
      (SystemInfo.enumKeys parse reg hkey ks acc).Nodup := by
  induction ks with
  | nil => intro acc h; exact h
  | cons k ks ih =>
    intro acc h
    exact ih _ (nodup_enumOne parse reg hkey k acc h)

theorem mem_enumHives (parse : String → Option ℚ) (reg : Registry)
    (keys : List String) (hives : List Hive) :
    ∀ (acc : List ℚ) (x : ℚ),
      x ∈ SystemInfo.enumHives parse reg keys hives acc ↔
        x ∈ acc ∨ ∃ hk ∈ hives, ∃ k ∈ keys, reg.openKey hk k = true ∧
          ∃ n ∈ reg.valueNames hk k ++ reg.subkeyNames hk k,
            parse n = some x := by
  induction hives with
  | nil => intro acc x; simp [SystemInfo.enumHives]
  | cons hv hs ih =>
    intro acc x
    simp only [SystemInfo.enumHives]
    rw [ih, mem_enumKeys]
    constructor
    · rintro ((h | h) | ⟨m, hm, hpm⟩)
      · exact Or.inl h
      · exact Or.inr ⟨hv, List.mem_cons_self hv hs, h⟩
      · exact Or.inr ⟨m, List.mem_cons_of_mem hv hm, hpm⟩
    · rintro (h | ⟨m, hm, hpm⟩)
      · exact Or.inl (Or.inl h)
      · rcases List.mem_cons.mp hm with rfl | hm
        · exact Or.inl (Or.inr hpm)
        · exact Or.inr ⟨m, hm, hpm⟩

theorem nodup_enumHives (parse : String → Option ℚ) (reg : Registry)
    (keys : List String) (hives : List Hive) :
    ∀ acc : List ℚ, acc.Nodup →
      (SystemInfo.enumHives parse reg keys hives acc).Nodup := by
  induction hives with
  | nil => intro acc h; exact h
  | cons hv hs ih =>
    intro acc h
    exact ih _ (nodup_enumKeys parse reg hv keys acc h)

/-- C3: `SystemInfo.find_availables_vcver` returns a strictly ascending (and
therefore duplicate-free) list, and a version is in the result exactly when
some enumerated value or subkey name under one of the two candidate key paths
in one of the four hive roots parses to it; names that do not parse never
appear and never raise (parse failure is simply skipped). -/
theorem find_availables_vcver_sorted_complete (parse : String → Option ℚ)
    (reg : Registry) (x86 : Bool) :
    (SystemInfo.find_availables_vcver parse reg x86).Sorted (· < ·) ∧
    ∀ v : ℚ, v ∈ SystemInfo.find_availables_vcver parse reg x86 ↔
      ∃ hk ∈ RegistryInfo.HKEYS,
        ∃ k ∈ [RegistryInfo.vc x86, RegistryInfo.vc_for_python x86],
          reg.openKey hk k = true ∧
          ∃ n ∈ reg.valueNames hk k ++ reg.subkeyNames hk k,
            parse n = some v := by
  constructor
  · have hperm := List.perm_insertionSort (α := ℚ) (· ≤ ·)
      (SystemInfo.enumHives parse reg
        [RegistryInfo.vc x86, RegistryInfo.vc_for_python x86]
        RegistryInfo.HKEYS [])
    have hnd : (SystemInfo.enumHives parse reg
        [RegistryInfo.vc x86, RegistryInfo.vc_for_python x86]
        RegistryInfo.HKEYS []).Nodup :=
      nodup_enumHives parse reg _ _ [] List.nodup_nil
    have hsorted := List.sorted_insertionSort (α := ℚ) (· ≤ ·)
      (SystemInfo.enumHives parse reg
        [RegistryInfo.vc x86, RegistryInfo.vc_for_python x86]
        RegistryInfo.HKEYS [])
    exact hsorted.lt_of_le (hperm.nodup_iff.mpr hnd)
  · intro v
    unfold SystemInfo.find_availables_vcver
    rw [(List.perm_insertionSort (α := ℚ) (· ≤ ·) _).mem_iff,
      mem_enumHives]
    simp

theorem mem_of_getLast?_eq {α : Type} :
    ∀ {l : List α} {a : α}, l.getLast? = some a → a ∈ l
  | [], _, h => by cases h
  | [x], a, h => by
      simp only [List.getLast?_singleton, Option.some.injEq] at h
      simp [h]
  | x :: y :: ys, a, h => by
      rw [List.getLast?_cons_cons] at h
      exact List.mem_cons_of_mem x (mem_of_getLast?_eq h)

theorem sorted_le_getLast :
    ∀ {l : List ℚ}, l.Sorted (· ≤ ·) →
      ∀ {w b : ℚ}, w ∈ l → l.getLast? = some b → w ≤ b
  | [], _, _, _, hw, _ => absurd hw (List.not_mem_nil _)
  | [x], _, w, b, hw, hb => by
      simp only [List.mem_singleton] at hw
      simp only [List.getLast?_singleton, Option.some.injEq] at hb
      rw [hw, hb]
  | x :: y :: ys, hs, w, b, hw, hb => by
      rw [List.getLast?_cons_cons] at hb
      rcases List.mem_cons.mp hw with rfl | hw
      · exact (List.sorted_cons.mp hs).1 b (mem_of_getLast?_eq hb)
      · exact sorted_le_getLast (List.sorted_cons.mp hs).2 hw hb

/-- On a `≤`-sorted rational list the last element is exactly the maximum. -/
theorem sorted_getLast?_iff_max {l : List ℚ} (hs : l.Sorted (· ≤ ·))
    (v : ℚ) : l.getLast? = some v ↔ v ∈ l ∧ ∀ w ∈ l, w ≤ v := by
  constructor
  · intro h
    exact ⟨mem_of_getLast?_eq h, fun w hw => sorted_le_getLast hs hw h⟩
  · rintro ⟨hv, hmax⟩
    cases hl : l.getLast? with
    | none =>
      rw [List.getLast?_eq_none_iff] at hl
      subst hl
      cases hv
    | some b =>
      have h1 : b ≤ v := hmax b (mem_of_getLast?_eq hl)
      have h2 : v ≤ b := sorted_le_getLast hs hv hl
      rw [le_antisymm h2 h1]

namespace SystemInfo

/-- `SystemInfo.__init__`: use the explicit `vcver` when truthy (Python float
truthiness: non-`None` and nonzero), else take `find_availables_vcver()[-1]`,
turning the `IndexError` on an empty list into the
`DistutilsPlatformError('No Microsoft Visual C++ version found')`. -/
def resolveVcver (parse : String → Option ℚ) (reg : Registry) (x86 : Bool)
    (vcver : Option ℚ) : Except String ℚ :=
  if vcver.getD 0 ≠ 0 then Except.ok (vcver.getD 0)
  else
    match (find_availables_vcver parse reg x86).getLast? with
    | some v => Except.ok v
    | none => Except.error "No Microsoft Visual C++ version found"

end SystemInfo

/-- C4: constructed without an explicit version, `SystemInfo` resolves the
maximum element of `find_availables_vcver()` (list indexing `[-1]` on the
ascending-sorted list), and when that list is empty it raises the platform
error `'No Microsoft Visual C++ version found'`, yielding no result. -/
theorem resolveVcver_selects_max_or_errors (parse : String → Option ℚ)
    (reg : Registry) (x86 : Bool) :
    (∀ v : ℚ, SystemInfo.resolveVcver parse reg x86 none = Except.ok v ↔
      v ∈ SystemInfo.find_availables_vcver parse reg x86 ∧
      ∀ w ∈ SystemInfo.find_availables_vcver parse reg x86, w ≤ v) ∧
    (SystemInfo.resolveVcver parse reg x86 none =
        Except.error "No Microsoft Visual C++ version found" ↔
      SystemInfo.find_availables_vcver parse reg x86 = []) := by
  have hs : (SystemInfo.find_availables_vcver parse reg x86).Sorted (· ≤ ·) := by
    unfold SystemInfo.find_availables_vcver
    exact List.sorted_insertionSort _ _
  have hdef : SystemInfo.resolveVcver parse reg x86 none =
      match (SystemInfo.find_availables_vcver parse reg x86).getLast? with
      | some v => Except.ok v
      | none => Except.error "No Microsoft Visual C++ version found" := by
    unfold SystemInfo.resolveVcver
    simp
  constructor
  · intro v
    rw [hdef, ← sorted_getLast?_iff_max hs v]
    cases hgl : (SystemInfo.find_availables_vcver parse reg x86).getLast? with
    | none => simp
    | some b => simp
  · rw [hdef, ← List.getLast?_eq_none_iff]
    cases hgl : (SystemInfo.find_availables_vcver parse reg x86).getLast? with
    | none => simp
    | some b => simp

/-- A concrete registry state in which every key opens and enumerating any
key yields the single value name `"9.0"` (used by witnesses). -/
def reg9 : Registry :=
  ⟨fun _ _ => true, fun _ _ _ => none, fun _ _ => ["9.0"], fun _ _ => []⟩

/-- A concrete version parser for witnesses: only `"9.0"` parses (to `9`). -/
def parse9 : String → Option ℚ :=
  fun s => if s = "9.0" then some 9 else none

/-- C4 witness: on the concrete registry exposing only `"9.0"`, construction
without an explicit version resolves `9.0`. -/
theorem resolveVcver_selects_max_or_errors_witness :
    SystemInfo.resolveVcver parse9 reg9 true none = Except.ok 9 :=
  ((resolveVcver_selects_max_or_errors parse9 reg9 true).1 9).mpr
    ⟨by decide, by decide⟩

namespace EnvironmentInfo

/-- `EnvironmentInfo.__init__`: build `SystemInfo` (resolving the version),
then, when `vcvermin` is truthy and the resolved version is strictly below
it, raise `DistutilsPlatformError('No suitable Microsoft Visual C++ version
found')`. -/
def resolveVersion (parse : String → Option ℚ) (reg : Registry) (x86 : Bool)
    (vcver vcvermin : Option ℚ) : Except String ℚ :=
  match SystemInfo.resolveVcver parse reg x86 vcver with
  | Except.error e => Except.error e
  | Except.ok v =>
    if vcvermin.getD 0 ≠ 0 then
      if v < vcvermin.getD 0 then
        Except.error "No suitable Microsoft Visual C++ version found"
      else Except.ok v
    else Except.ok v

end EnvironmentInfo

/-- C5: when `EnvironmentInfo` is constructed with a (truthy) minimum version
and the resolved toolchain version is strictly lower, construction raises the
platform error `'No suitable Microsoft Visual C++ version found'`. -/
theorem resolveVersion_below_min_errors (parse : String → Option ℚ)
    (reg : Registry) (x86 : Bool) (vcver : Option ℚ) (v m : ℚ)
    (hm : m ≠ 0)
    (hres : SystemInfo.resolveVcver parse reg x86 vcver = Except.ok v)
    (hlt : v < m) :
    EnvironmentInfo.resolveVersion parse reg x86 vcver (some m) =
      Except.error "No suitable Microsoft Visual C++ version found" := by
  unfold EnvironmentInfo.resolveVersion
  rw [hres]
  simp [Option.getD, hm, hlt]

/-- C5 witness (the claim's own end-to-end case): with only version 9.0
discoverable and `vcvermin = 14.0`, construction fails with the "no suitable
version" platform error. -/
theorem resolveVersion_below_min_errors_witness :
    EnvironmentInfo.resolveVersion parse9 reg9 true none (some 14) =
      Except.error "No suitable Microsoft Visual C++ version found" :=
  resolveVersion_below_min_errors parse9 reg9 true none 9 14
    (by norm_num) (by rfl) (by norm_num)

namespace EnvironmentInfo

/-- The loop of `EnvironmentInfo._unique_everseen` with `key=None`: yield an
element when it is not in the `seen` set, remembering everything yielded. -/
def unique_everseen_aux (seen : List String) : List String → List String
  | [] => []
  | x :: xs =>
    if x ∈ seen then unique_everseen_aux seen xs
    else x :: unique_everseen_aux (x :: seen) xs

/-- `EnvironmentInfo._unique_everseen(iterable)` (the `key=None` branch used
by `_build_paths`): unique elements preserving first-seen order, comparing
case-sensitively. -/
def unique_everseen (l : List String) : List String := unique_everseen_aux [] l

/-- Recursion scaffold for `dedupFirst`, structural in a fuel argument so
that it evaluates inside the kernel; the fuel never runs out when it starts
at the list length (see `dedupFirstAux_fuel`). -/
def dedupFirstAux : Nat → List String → List String
  | _, [] => []
  | 0, _ :: _ => []
  | n + 1, x :: xs => x :: dedupFirstAux n (xs.filter (fun y => y ≠ x))

/-- Spec-side formulation of "deduplicate keeping the first occurrence of
each entry": keep the head, then recurse on the tail purged of it. -/
def dedupFirst (l : List String) : List String := dedupFirstAux l.length l

/-- `EnvironmentInfo._build_paths(name, spec_path_lists)` given the ambient
filesystem (`isdir`, for `os.path.isdir`) and process environment (`env`,
with `os.environ.get(name, '')` modelled as `env name`): flatten the
specified path lists, append the entries of the same-named environment
variable, keep existing directories only, fail with the category-named
platform error when none remain, else deduplicate first-seen and join with
`os.pathsep`. -/
def build_paths (isdir : String → Bool) (env : String → String)
    (name : String) (spec_path_lists : List (List String)) :
    Except String String :=
  let spec_paths := spec_path_lists.flatten
  let env_paths := pySplit pathsep (env name)
  let paths := spec_paths ++ env_paths
  let extant_paths := paths.filter isdir
  if extant_paths.isEmpty then
    Except.error (upperStr name ++ " environment variable is empty")
  else
    Except.ok (pyJoin pathsep (unique_everseen extant_paths))

end EnvironmentInfo

theorem dedupFirstAux_fuel :
    ∀ n : Nat, ∀ l : List String, l.length ≤ n →
      EnvironmentInfo.dedupFirstAux n l = EnvironmentInfo.dedupFirst l := by
  intro n
  induction n using Nat.strong_induction_on with
  | _ n ih =>
    intro l hl
    match n, l with
    | 0, [] => rfl
    | _ + 1, [] => rfl
    | 0, x :: xs => simp at hl
    | n + 1, x :: xs =>
      have hxs : xs.length ≤ n := by simpa using hl
      have hf : (xs.filter (fun y => y ≠ x)).length ≤ xs.length :=
        List.length_filter_le _ _
      have h1 := ih n (Nat.lt_succ_self n) (xs.filter (fun y => y ≠ x))
        (le_trans hf hxs)
      have h2 := ih xs.length (Nat.lt_succ_of_le hxs)
        (xs.filter (fun y => y ≠ x)) hf
      have hrhs : EnvironmentInfo.dedupFirst (x :: xs) =
          x :: EnvironmentInfo.dedupFirstAux xs.length
            (xs.filter (fun y => y ≠ x)) := rfl
      show x :: EnvironmentInfo.dedupFirstAux n (xs.filter (fun y => y ≠ x)) =
        EnvironmentInfo.dedupFirst (x :: xs)
      rw [hrhs, h1, h2]

theorem dedupFirst_nil : EnvironmentInfo.dedupFirst [] = [] := rfl

theorem dedupFirst_cons (x : String) (xs : List String) :
    EnvironmentInfo.dedupFirst (x :: xs) =
      x :: EnvironmentInfo.dedupFirst (xs.filter (fun y => y ≠ x)) := by
  have h0 : EnvironmentInfo.dedupFirst (x :: xs) =
      x :: EnvironmentInfo.dedupFirstAux xs.length
        (xs.filter (fun y => y ≠ x)) := rfl
  rw [h0, dedupFirstAux_fuel xs.length _ (List.length_filter_le _ _)]

theorem unique_everseen_aux_eq_dedupFirst (l : List String) :
    ∀ seen : List String,
      EnvironmentInfo.unique_everseen_aux seen l =
        EnvironmentInfo.dedupFirst (l.filter (fun y => y ∉ seen)) := by
  induction l with
  | nil => intro seen; rfl
  | cons x xs ih =>
    intro seen
    by_cases hx : x ∈ seen
    · have hfx : (decide (x ∉ seen)) = false := by simp [hx]
      simp only [EnvironmentInfo.unique_everseen_aux, hx, if_true,
        List.filter_cons, hfx]
      exact ih seen
    · have hfx : (decide (x ∉ seen)) = true := by simp [hx]
      simp only [EnvironmentInfo.unique_everseen_aux, if_neg hx,
        List.filter_cons, hfx, eq_self_iff_true, if_true]
      rw [dedupFirst_cons, ih (x :: seen), List.filter_filter]
      have hpred : ∀ y ∈ xs,
          (decide (y ∉ x :: seen)) =
            ((decide (y ≠ x)) && (decide (y ∉ seen))) := by
        intro y hy
        rcases Decidable.em (y = x) with rfl | hne
        · simp
        · simp [List.mem_cons, hne]
      rw [List.filter_congr hpred]

theorem unique_everseen_eq_dedupFirst (l : List String) :
    EnvironmentInfo.unique_everseen l = EnvironmentInfo.dedupFirst l := by
  unfold EnvironmentInfo.unique_everseen
  rw [unique_everseen_aux_eq_dedupFirst l []]
  have hall : ∀ y ∈ l, (decide (y ∉ ([] : List String))) = (fun _ => true) y :=
    by simp
  rw [List.filter_congr hall, List.filter_true]

/-- C1: `_build_paths` errors with the category-named platform error exactly
when no candidate (the flattened spec lists followed by the entries of the
same-named environment variable) is an existing directory; otherwise it
returns the `os.pathsep` join of exactly the existing-directory candidates,
in order with the environment entries at lower priority (appended after),
deduplicated case-sensitively keeping first occurrences. -/
theorem build_paths_filters_dedups_and_errors (isdir : String → Bool)
    (env : String → String) (name : String) (lists : List (List String)) :
    (EnvironmentInfo.build_paths isdir env name lists =
        Except.error (upperStr name ++ " environment variable is empty") ↔
      ∀ p ∈ lists.flatten ++ pySplit pathsep (env name), isdir p = false) ∧
    ((∃ p ∈ lists.flatten ++ pySplit pathsep (env name), isdir p = true) →
      EnvironmentInfo.build_paths isdir env name lists =
        Except.ok (pyJoin pathsep (EnvironmentInfo.dedupFirst
          ((lists.flatten ++ pySplit pathsep (env name)).filter isdir)))) := by
  have hopen : EnvironmentInfo.build_paths isdir env name lists =
      if ((lists.flatten ++ pySplit pathsep (env name)).filter
          isdir).isEmpty then
        Except.error (upperStr name ++ " environment variable is empty")
      else
        Except.ok (pyJoin pathsep (EnvironmentInfo.unique_everseen
          ((lists.flatten ++ pySplit pathsep (env name)).filter isdir))) :=
    rfl
  have hiff : ((lists.flatten ++ pySplit pathsep (env name)).filter
        isdir).isEmpty = true ↔
      ∀ p ∈ lists.flatten ++ pySplit pathsep (env name), isdir p = false := by
    rw [List.isEmpty_iff, List.filter_eq_nil_iff]
    simp
  constructor
  · by_cases hemp : ((lists.flatten ++ pySplit pathsep (env name)).filter
        isdir).isEmpty
    · rw [hopen, if_pos hemp]
      exact iff_of_true rfl (hiff.mp hemp)
    · rw [hopen, if_neg hemp]
      constructor
      · intro h
        cases h
      · intro hall
        exact absurd (hiff.mpr hall) hemp
  · rintro ⟨p, hp, hdir⟩
    have hne : ¬ ((lists.flatten ++ pySplit pathsep (env name)).filter
        isdir).isEmpty = true := by
      intro hemp
      have := hiff.mp hemp p hp
      rw [hdir] at this
      cases this
    rw [hopen, if_neg hne, unique_everseen_eq_dedupFirst]

/-- Concrete filesystem for the C1 witness: only `A`, `B`, `C` exist. -/
def exIsdir : String → Bool := fun s => s = "A" || s = "B" || s = "C"

/-- Concrete environment for the C1 witness: `include` is set to `C;D`. -/
def exEnv : String → String := fun n => if n = "include" then "C;D" else ""

/-- C1 witness: candidates `[["A","B"],["A"]]` plus environment entries
`C;D`: existing directories in order are `A,B,A,C`; deduplication keeps the
first occurrences, so the result is `A;B;C`. -/
theorem build_paths_filters_dedups_and_errors_witness :
    EnvironmentInfo.build_paths exIsdir exEnv "include" [["A", "B"], ["A"]] =
      Except.ok "A;B;C" := by
  have h := (build_paths_filters_dedups_and_errors exIsdir exEnv "include"
    [["A", "B"], ["A"]]).2 ⟨"A", by decide, by decide⟩
  rw [h]
  rfl

/-- A Python value that is either a list of strings or a single string (the
facet properties of `EnvironmentInfo` are expected to return lists, but
`VCStoreRefs` returns a bare string on one branch). -/
inductive PyVal
  | list (l : List String)
  | str (s : String)
deriving DecidableEq

/-- Python iteration over such a value, as `itertools.chain.from_iterable`
performs in `return_env`: a list yields its elements, but a string yields its
characters as one-character strings. -/
def pyIter : PyVal → List String
  | PyVal.list l => l
  | PyVal.str s => s.data.map (fun c => String.mk [c])

namespace EnvironmentInfo

/-- `EnvironmentInfo.VCStoreRefs`: `[]` below version 14.0, and the bare
string `os.path.join(VCInstallDir, r'Lib\store\references')` (not a list) at
or above it. -/
def VCStoreRefs (vcver : ℚ) (vcInstallDir : String) : PyVal :=
  if vcver < 14 then PyVal.list []
  else PyVal.str (ntJoin vcInstallDir "Lib\\store\\references")

end EnvironmentInfo

/-- C8 (code bug): below 14.0 `VCStoreRefs` is the empty list as claimed, but
at 14.0 it evaluates to a bare string instead of a list of candidate
directories (with no architecture subfolder), so iterating it in
`return_env` yields one-character fragments rather than the directory. -/
theorem vcstorerefs_returns_string_not_list :
    EnvironmentInfo.VCStoreRefs 9 "C:\\VC" = PyVal.list [] ∧
    EnvironmentInfo.VCStoreRefs 14 "C:\\VC" =
      PyVal.str "C:\\VC\\Lib\\store\\references" ∧
    pyIter (EnvironmentInfo.VCStoreRefs 14 "C:\\VC") ≠
      ["C:\\VC\\Lib\\store\\references"] ∧
    (pyIter (EnvironmentInfo.VCStoreRefs 14 "C:\\VC")).all
      (fun s => s.length = 1) = true := by
  refine ⟨rfl, rfl, by decide, by decide⟩

/-- Loop state of the `for ver in vers: sdkdir = ...; if sdkdir: break`
pattern: `none` when the Python local `sdkdir` was never assigned, and
`some s` when its last assignment was `s` (`s = none` models Python `None`).
Falsy lookup results (`None` or `''`) do not break the loop. -/
def sdkLoop (f : String → Option String) :
    List String → Option (Option String) → Option (Option String)
  | [], st => st
  | v :: vs, _ =>
    match f v with
    | some s => if s ≠ "" then some (some s) else sdkLoop f vs (some (some s))
    | none => sdkLoop f vs (some none)

/-- Outcome of evaluating one of the directory properties: a value, or an
`UnboundLocalError` raised by reading a never-assigned local. -/
inductive PyOutcome
  | ok (s : String)
  | nameError
deriving DecidableEq

namespace SystemInfo

/-- `SystemInfo.NetFxSdkVersion`: `('4.6.1', '4.6')` at/above 14.0, else
the empty tuple. -/
def NetFxSdkVersion (vcver : ℚ) : List String :=
  if 14 ≤ vcver then ["4.6.1", "4.6"] else []

/-- `SystemInfo.UniversalCRTSdkDir`: candidate kit-root names `('10', '81')`
at/above 14.0 and `()` below; looks `kitsroot<ver>` up under the Windows
Kits Roots key, breaking at the first truthy hit; finally evaluates
`sdkdir or ''` — which reads the local `sdkdir` even when the loop never
ran. -/
def UniversalCRTSdkDir (reg : Registry) (x86 : Bool) (vcver : ℚ) :
    PyOutcome :=
  match sdkLoop
      (fun ver => RegistryInfo.lookup reg (RegistryInfo.windows_kits_roots x86)
        ("kitsroot" ++ ver))
      (if 14 ≤ vcver then ["10", "81"] else []) none with
  | none => PyOutcome.nameError
  | some st => PyOutcome.ok (st.getD "")

/-- `SystemInfo.NetFxSdkDir`: same pattern over `NetFxSdkVersion`, reading
`kitsinstallationfolder` under `netfx_sdk\<ver>`. -/
def NetFxSdkDir (reg : Registry) (x86 : Bool) (vcver : ℚ) : PyOutcome :=
  match sdkLoop
      (fun ver => RegistryInfo.lookup reg
        (ntJoin (RegistryInfo.netfx_sdk x86) ver) "kitsinstallationfolder")
      (NetFxSdkVersion vcver) none with
  | none => PyOutcome.nameError
  | some st => PyOutcome.ok (st.getD "")

end SystemInfo

/-- A registry in which nothing opens (every lookup misses). -/
def emptyReg : Registry :=
  ⟨fun _ _ => false, fun _ _ _ => none, fun _ _ => [], fun _ _ => []⟩

/-- A registry exposing exactly the value `kitsroot10 = K10Dir` under every
key of every hive. -/
def kitsReg : Registry :=
  ⟨fun _ _ => true,
   fun _ _ n => if n = "kitsroot10" then some "K10Dir" else none,
   fun _ _ => [], fun _ _ => []⟩

/-- C9 (code bug): at/above 14.0 both properties return the first candidate
hit (or `''` when all candidates miss, without raising), but below 14.0 the
candidate version list is empty, the loop body never assigns the local
`sdkdir`, and `return sdkdir or ''` raises `UnboundLocalError` instead of
returning the empty string. -/
theorem sdk_dirs_unbound_below_14 :
    SystemInfo.UniversalCRTSdkDir emptyReg true 9 = PyOutcome.nameError ∧
    SystemInfo.NetFxSdkDir emptyReg true 9 = PyOutcome.nameError ∧
    SystemInfo.UniversalCRTSdkDir emptyReg true 14 = PyOutcome.ok "" ∧
    SystemInfo.NetFxSdkDir emptyReg true 14 = PyOutcome.ok "" ∧
    SystemInfo.UniversalCRTSdkDir kitsReg true 14 = PyOutcome.ok "K10Dir" := by
  refine ⟨rfl, rfl, rfl, rfl, rfl⟩

/-- Model of `'%0.1f' % version` for the non-negative, one-decimal toolchain
versions the module formats (9.0, 10.0, 14.0, ...). -/
def fmtVer (v : ℚ) : String :=
  toString (v.num * 10 / (v.den : Int) / 10) ++ "." ++
    toString (v.num * 10 / (v.den : Int) % 10)

/-- Model of a raised Python exception's `args` tuple (the module only ever
inspects string arguments). -/
structure PyExc where
  args : List String
deriving DecidableEq

/-- Python exception kinds that can escape `_augment_exception` itself. -/
inductive PyError
  | typeError
  | indexError
deriving DecidableEq

/-- Python tuple item assignment (`t[i] = v`): tuples are immutable, so this
always raises `TypeError`. -/
def tupleSetItem (t : List String) (i : Nat) (v : String) :
    Except PyError (List String) :=
  Except.error PyError.typeError

/-- The message `_augment_exception` computes before storing it back: wrap
the message and append version-specific remediation text when it mentions
`vcvarsall` or `visual c` (download links for 9.0 — SDK 7.0 for ia64
targets, VC for Python 2.7 otherwise — and SDK 7.1 for 10.0). -/
def augmentedMessage (message : String) (version : ℚ) (arch : String) :
    String :=
  if containsSub "vcvarsall".data (pyLower message.data) ||
      containsSub "visual c".data (pyLower message.data) then
    let m := "Microsoft Visual C++ " ++ fmtVer version ++ " is required (" ++
      message ++ ")."
    if version = 9 then
      if containsSub "ia64".data (pyLower arch.data) then
        m ++ " Get it with \"Microsoft Windows SDK 7.0\": " ++
          "www.microsoft.com/download/details.aspx?id=3138"
      else
        m ++ " Get it from http://aka.ms/vcpython27"
    else if version = 10 then
      m ++ " Get it with \"Microsoft Windows SDK 7.1\": " ++
        "www.microsoft.com/download/details.aspx?id=8279"
    else m
  else message

/-- `_augment_exception(exc, version, arch)`: read `exc.args[0]`, compute the
enriched message, then execute `exc.args[0] = message` — an item assignment
on the `args` tuple. -/
def _augment_exception (exc : PyExc) (version : ℚ) (arch : String) :
    Except PyError PyExc :=
  match exc.args with
  | [] => Except.error PyError.indexError
  | message :: _ =>
    let newMessage := augmentedMessage message version arch
    match tupleSetItem exc.args 0 newMessage with
    | Except.ok args2 => Except.ok ⟨args2⟩
    | Except.error e => Except.error e

/-- The fallback tail of `msvc9_query_vcvarsall`: when the
`EnvironmentInfo(...).return_env()` computation (passed here as its result)
raises the platform error, call `_augment_exception` and re-raise; an
exception raised inside `_augment_exception` itself escapes instead
(`Sum.inl`), while the re-raised platform error is `Sum.inr`. -/
def msvc9_query_vcvarsall_fallback {α : Type} (envResult : Except PyExc α)
    (ver : ℚ) (arch : String) : Except (PyError ⊕ PyExc) α :=
  match envResult with
  | Except.ok e => Except.ok e
  | Except.error exc =>
    match _augment_exception exc ver arch with
    | Except.ok exc2 => Except.error (Sum.inr exc2)
    | Except.error e => Except.error (Sum.inl e)

/-- The fallback tail of `msvc14_get_vc_env`: same shape, with the fixed
version 14.0 and the default empty `arch`. -/
def msvc14_get_vc_env_fallback {α : Type} (envResult : Except PyExc α) :
    Except (PyError ⊕ PyExc) α :=
  match envResult with
  | Except.ok e => Except.ok e
  | Except.error exc =>
    match _augment_exception exc 14 "" with
    | Except.ok exc2 => Except.error (Sum.inr exc2)
    | Except.error e => Except.error (Sum.inl e)

/-- C10 (code bug): whenever the fallback computation raises the platform
error, `_augment_exception` computes the enriched message but then performs
`exc.args[0] = message` on the `args` tuple, which raises `TypeError`; so a
`TypeError` — not the augmented platform error — escapes to the caller of
both `msvc9_query_vcvarsall` and `msvc14_get_vc_env`, whatever the message
says. The message that was about to be stored matches the claimed
enrichment. -/
theorem augment_exception_raises_type_error :
    msvc9_query_vcvarsall_fallback (α := List String)
      (Except.error ⟨["Microsoft Visual C++ directory not found"]⟩) 9 "x86" =
      Except.error (Sum.inl PyError.typeError) ∧
    msvc14_get_vc_env_fallback (α := List String)
      (Except.error ⟨["LIB environment variable is empty"]⟩) =
      Except.error (Sum.inl PyError.typeError) ∧
    augmentedMessage "Microsoft Visual C++ directory not found" 9 "x86" =
      "Microsoft Visual C++ 9.0 is required (Microsoft Visual C++ " ++
        "directory not found). Get it from http://aka.ms/vcpython27" ∧
    augmentedMessage "LIB environment variable is empty" 14 "" =
      "LIB environment variable is empty" := by
  exact ⟨rfl, rfl, by decide, rfl⟩
